import Mathlib

/-!
Shallow embedding of the Flask OCR visiting-card service
(files `flask_api/main.py`, the base English-only variant, and `main.py`,
the bilingual English+Bangla variant).

Conventions of the embedding:
* Strings are modelled by Lean `String` / `List Char`.
* Python regular-expression character classes are modelled by decidable
  character predicates.  The Python `\s` class and `str.strip()` whitespace
  set are modelled by `isPySpace` (the Unicode whitespace set Python uses);
  `\d`, `[A-Za-z]` and `str.lower` are modelled on the ASCII range, which is
  the range every claim below exercises.
* Code that can raise a Python exception is modelled with `Except String`:
  the opaque OCR engine calls are passed in as `Except`-valued parameters
  (an engine is a black box that either returns detected text or raises),
  and adapter / endpoint code is translated as written, catching or
  propagating those outcomes exactly where the Python code does.
* Python `list(set(xs))` has unspecified order; it is modelled by
  `List.dedup`, so only membership and duplicate-freeness are meaningful
  for multi-element extraction results.
-/

/-! ## Character classes -/

/-- The Python `\s` / `str.strip` whitespace set (Unicode, as used by
`re.sub(r"\s+", " ", text)` and `.strip()` on `str`). -/
def isPySpace (c : Char) : Bool :=
  match c with
  | ' ' | '\t' | '\n' | '\r' | '\u000B' | '\u000C'
  | '\u001C' | '\u001D' | '\u001E' | '\u001F'
  | '\u0085' | '\u00A0' | '\u1680'
  | '\u2028' | '\u2029' | '\u202F' | '\u205F' | '\u3000' => true
  | _ => decide (0x2000 ≤ c.toNat ∧ c.toNat ≤ 0x200A)

/-- The non-whitespace part of the base variant's allow-list
`[A-Za-z0-9\s\.\,\-\(\)\/@:+]` (from `flask_api/main.py`, line 49). -/
def visibleBase (c : Char) : Bool :=
  c.isAlpha || c.isDigit || c == '.' || c == ',' || c == '-' ||
  c == '(' || c == ')' || c == '/' || c == '@' || c == ':' || c == '+'

/-- The base variant's allow-list `[A-Za-z0-9\s\.\,\-\(\)\/@:+]`. -/
def allowedBase (c : Char) : Bool := visibleBase c || isPySpace c

/-- The Bangla Unicode block `ঀ-৿`. -/
def isBangla (c : Char) : Bool := decide (0x0980 ≤ c.toNat ∧ c.toNat ≤ 0x09FF)

/-- The non-whitespace part of the bilingual variant's allow-list
`[ঀ-৿a-zA-Z0-9\s\.\,\-\(\)\/@:+<>]` (from `main.py`, line 29). -/
def visibleBn (c : Char) : Bool :=
  isBangla c || visibleBase c || c == '<' || c == '>'

/-- The bilingual variant's allow-list. -/
def allowedBn (c : Char) : Bool := visibleBn c || isPySpace c

/-! ## Text normalizer (`clean_text_regex`) -/

/-- Step 1 of `clean_text_regex`:
`re.sub(r"[^<allow-list>]", " ", text)` — every character outside the
allow-list is replaced by a single space. -/
def subDisallowed (allowed : Char → Bool) (cs : List Char) : List Char :=
  cs.map fun c => if allowed c then c else ' '

/-- Step 2 of `clean_text_regex`: `re.sub(r"\s+", " ", text)` — every
maximal run of whitespace characters is replaced by one ASCII space. -/
def collapseWs : List Char → List Char
  | [] => []
  | [c] => if isPySpace c then [' '] else [c]
  | c :: d :: cs =>
    if isPySpace c then
      if isPySpace d then collapseWs (d :: cs)
      else ' ' :: collapseWs (d :: cs)
    else c :: collapseWs (d :: cs)

/-- Remove trailing Python whitespace (the right half of `str.strip()`). -/
def dropTrailWs (cs : List Char) : List Char :=
  (cs.reverse.dropWhile isPySpace).reverse

/-- Python `str.strip()` on character lists: remove leading and trailing
whitespace. -/
def stripWs (cs : List Char) : List Char :=
  dropTrailWs (cs.dropWhile isPySpace)

/-- Python `str.strip()` on strings (also used for the `text` form field at
the top of `process_visiting_card`). -/
def pyStripStr (s : String) : String := String.mk (stripWs s.data)

/-- The three regex/strip steps of `clean_text_regex`, parametrized by the
allow-list. -/
def cleanChars (allowed : Char → Bool) (cs : List Char) : List Char :=
  stripWs (collapseWs (subDisallowed allowed cs))

/-- `clean_text_regex` of the base variant (`flask_api/main.py`, lines
46-51).  The Python guard `if not text: return ""` fires both for `None`
(modelled as `none`) and for the empty string. -/
def clean_text_regex : Option String → String
  | none => ""
  | some s => if s = "" then "" else String.mk (cleanChars allowedBase s.data)

/-- `clean_text_regex` of the bilingual variant (`main.py`, lines 27-31).
There is no falsy guard: `re.sub` applied to `None` raises a `TypeError`,
modelled as `Except.error`; string input never fails. -/
def clean_text_regex_bn : Option String → Except String String
  | none => Except.error "TypeError: expected string or bytes-like object"
  | some s => Except.ok (String.mk (cleanChars allowedBn s.data))

/-! ## Engine adapters -/

/-- `ocr_with_tesseract` of the base variant (`flask_api/main.py`, lines
30-35): the underlying engine call either returns text or raises; the
bare `except:` converts any raise into the empty string. -/
def ocr_with_tesseract (engine : Except String String) : String :=
  match engine with
  | Except.ok s => s
  | Except.error _ => ""

/-- `ocr_with_paddle` of the base variant (`flask_api/main.py`, lines
37-43): on success the engine yields nested block/line results, flattened
in block-then-line order and joined with newlines; the bare `except:`
converts any raise into the empty string. -/
def ocr_with_paddle (engine : Except String (List (List String))) : String :=
  match engine with
  | Except.ok blocks => String.intercalate "\n" blocks.flatten
  | Except.error _ => ""

/-- `ocr_with_tesseract` of the bilingual variant (`main.py`, lines 20-24):
there is no `try`/`except`, so an engine raise propagates to the caller. -/
def ocr_with_tesseract_bn (engine : Except String String) : Except String String :=
  match engine with
  | Except.ok s => Except.ok s
  | Except.error e => Except.error e

/-! ## Entity extractors -/

/-- Python substring containment `needle in hay`. -/
def containsSub (needle : List Char) : List Char → Bool
  | [] => needle.isPrefixOf []
  | c :: t => needle.isPrefixOf (c :: t) || containsSub needle t

/-- ASCII `str.lower`, as applied by the extractors and the filename
extension check. -/
def pyLower (cs : List Char) : List Char := cs.map Char.toLower

/-- The email local-part class `[a-zA-Z0-9._%+-]`. -/
def isEmailLocal (c : Char) : Bool :=
  c.isAlpha || c.isDigit || c == '.' || c == '_' || c == '%' || c == '+' || c == '-'

/-- The email domain class `[a-zA-Z0-9.-]`. -/
def isEmailDomain (c : Char) : Bool :=
  c.isAlpha || c.isDigit || c == '.' || c == '-'

/-- Backtracking of `[a-zA-Z0-9.-]+\.[a-zA-Z]{2,}` over the maximal
domain-class run `r`: the greedy `+` tries the longest domain prefix
first (length `i`, counting down), requiring a literal `.` at index `i`
followed by a greedy run of at least two ASCII letters.  Returns the
matched domain characters. -/
def emailDomainTry (r : List Char) : Nat → Option (List Char)
  | 0 => none
  | i + 1 =>
    match r.get? (i + 1) with
    | some '.' =>
      let t := (r.drop (i + 2)).takeWhile Char.isAlpha
      if 2 ≤ t.length then some (r.take (i + 1) ++ '.' :: t)
      else emailDomainTry r i
    | _ => emailDomainTry r i

/-- One attempted match of
`[a-zA-Z0-9._%+-]+@[a-zA-Z0-9.-]+\.[a-zA-Z]{2,}` anchored at the head of
`cs`.  (`@` is not in the local class, so backtracking the leading `+`
cannot help and the maximal local run is the only candidate.)  Returns
the matched characters and the remaining input. -/
def emailMatchAt (cs : List Char) : Option (List Char × List Char) :=
  let l := cs.takeWhile isEmailLocal
  if l.isEmpty then none
  else
    match cs.drop l.length with
    | '@' :: rest =>
      let r := rest.takeWhile isEmailDomain
      match emailDomainTry r r.length with
      | some dom =>
        let m := l ++ '@' :: dom
        some (m, cs.drop m.length)
      | none => none
    | _ => none

/-- `re.findall` scan for the email pattern: try a match at every start
position, left to right, continuing after each match (fuelled by the
input length; a successful match always consumes at least one character,
so fuel `cs.length` is exact). -/
def scanEmails : Nat → List Char → List (List Char)
  | 0, _ => []
  | _ + 1, [] => []
  | fuel + 1, c :: cs =>
    match emailMatchAt (c :: cs) with
    | some (m, rest) => m :: scanEmails fuel rest
    | none => scanEmails fuel cs

/-- `extract_emails` (`flask_api/main.py`, lines 53-54).  Python's
`list(set(...))` has unspecified order; only membership is modelled. -/
def extract_emails (s : String) : List String :=
  ((scanEmails s.data.length s.data).map String.mk).dedup

/-- The phone separator class `[\s\-]`. -/
def isSepChar (c : Char) : Bool := isPySpace c || c == '-'

/-- The tail `[\s\-]?\d{8,11}` of the phone pattern: greedy optional
separator, then a greedy run of 8 to 11 ASCII digits.  (A separator is
never a digit, so if the digits fail after consuming a separator the
zero-separator alternative fails too.)  Returns the consumed characters. -/
def phoneTail (cs : List Char) : Option (List Char) :=
  match cs with
  | c :: rest =>
    if isSepChar c then
      let run := rest.takeWhile Char.isDigit
      if 8 ≤ run.length then some (c :: run.take 11) else none
    else
      let run := cs.takeWhile Char.isDigit
      if 8 ≤ run.length then some (run.take 11) else none
  | [] => none

/-- Try a literal phone prefix alternative followed by `phoneTail`. -/
def tryPhoneWith (pfx : List Char) (cs : List Char) : Option (List Char × List Char) :=
  if pfx.isPrefixOf cs then
    match phoneTail (cs.drop pfx.length) with
    | some t => some (pfx ++ t, cs.drop (pfx.length + t.length))
    | none => none
  else none

/-- The `\d{1,3}` part of the final phone alternative, greedy with
backtracking: try three digits, then two, then one, each followed by
`phoneTail`.  Returns the consumed characters (digits plus tail). -/
def tryDigits13 (cs : List Char) : Option (List Char) :=
  tryK 3 <|> tryK 2 <|> tryK 1
where
  tryK (k : Nat) : Option (List Char) :=
    let d := cs.take k
    if d.length = k && d.all Char.isDigit then
      match phoneTail (cs.drop k) with
      | some t => some (d ++ t)
      | none => none
    else none

/-- One attempted match of
`(?:\+880|\+88|01|\+?\d{1,3})[\s\-]?\d{8,11}` anchored at the head of
`cs`, trying the alternatives in the regex order.  For `\+?\d{1,3}` the
greedy optional `+` is tried first; without it, a leading `+` cannot be a
digit, so the plus branch alone decides. -/
def phoneMatchAt (cs : List Char) : Option (List Char × List Char) :=
  match tryPhoneWith "+880".data cs with
  | some r => some r
  | none =>
    match tryPhoneWith "+88".data cs with
    | some r => some r
    | none =>
      match tryPhoneWith "01".data cs with
      | some r => some r
      | none =>
        match cs with
        | '+' :: rest =>
          match tryDigits13 rest with
          | some t => some ('+' :: t, cs.drop (t.length + 1))
          | none => none
        | _ =>
          match tryDigits13 cs with
          | some t => some (t, cs.drop t.length)
          | none => none

/-- `re.findall` scan for the phone pattern (fuelled like `scanEmails`). -/
def scanPhones : Nat → List Char → List (List Char)
  | 0, _ => []
  | _ + 1, [] => []
  | fuel + 1, c :: cs =>
    match phoneMatchAt (c :: cs) with
    | some (m, rest) => m :: scanPhones fuel rest
    | none => scanPhones fuel cs

/-- `extract_phones` (`flask_api/main.py`, lines 56-58). -/
def extract_phones (s : String) : List String :=
  ((scanPhones s.data.length s.data).map String.mk).dedup

/-- `re.findall(r"\d+", text)`: every maximal run of digits, left to
right (fuelled by the input length). -/
def scanNumbers : Nat → List Char → List (List Char)
  | 0, _ => []
  | _ + 1, [] => []
  | fuel + 1, c :: cs =>
    if c.isDigit then
      ((c :: cs).takeWhile Char.isDigit) :: scanNumbers fuel ((c :: cs).dropWhile Char.isDigit)
    else scanNumbers fuel cs

/-- `extract_numbers` (`flask_api/main.py`, lines 75-76). -/
def extract_numbers (s : String) : List String :=
  ((scanNumbers s.data.length s.data).map String.mk).dedup

/-- `re.split(r"[,.]", text)`: split at every comma or period, keeping
empty pieces. -/
def splitSep : List Char → List (List Char)
  | [] => [[]]
  | c :: t =>
    let r := splitSep t
    if c == ',' || c == '.' then [] :: r
    else
      match r with
      | h :: ts => (c :: h) :: ts
      | [] => [[c]]

/-- The fixed keyword list of `extract_addresses`. -/
def address_keywords : List String :=
  ["road", "rd", "street", "st", "avenue", "ave",
   "house", "floor", "level", "block", "sector",
   "dhaka", "bangladesh", "city", "tower", "building"]

/-- `extract_addresses` (`flask_api/main.py`, lines 60-73): split on
commas and periods; a fragment is kept iff some keyword occurs
(case-insensitively) in it and its length exceeds 10; kept fragments are
stripped; `list(set(...))` is modelled by `dedup`. -/
def extract_addresses (s : String) : List String :=
  ((splitSep s.data).filterMap fun l =>
    if (address_keywords.any fun k =>
          containsSub (pyLower k.data) (pyLower l)) && decide (10 < l.length) then
      some (String.mk (stripWs l))
    else none).dedup

/-! ## The `/process` endpoint (base variant) -/

/-- The outcomes of the three opaque engine invocations made inside the
image branch of `process_visiting_card`: `easy_reader.readtext` (a list
of detected line texts, or a raise), the engine call inside
`ocr_with_tesseract`, and the engine call inside `ocr_with_paddle`. -/
structure EngineEnv where
  easy : Except String (List String)
  tess : Except String String
  paddle : Except String (List (List String))

/-- The JSON body of a successful `/process` response. -/
structure OkBody where
  ocr_results : List (String × String × String)
  combined_cleaned_text : String
  emails : List String
  phones : List String
  addresses : List String
  numbers : List String
deriving DecidableEq

/-- A `/process` HTTP response: 400, 500, or 200 with a body. -/
inductive ProcResponse where
  | badRequest (error : String)
  | serverError (error : String)
  | ok (body : OkBody)
deriving DecidableEq

/-- A `/process` outcome together with the observable file-system effect
on the transient upload: whether the upload was saved and whether it was
removed again. -/
structure ProcOutcome where
  resp : ProcResponse
  savedUpload : Bool
  removedUpload : Bool
deriving DecidableEq

/-- The extension check
`image_file.filename.lower().endswith(('.png', '.jpg', '.jpeg', '.bmp'))`. -/
def allowed_image_ext (filename : String) : Bool :=
  let f := pyLower filename.data
  ".png".data.isSuffixOf f || ".jpg".data.isSuffixOf f ||
  ".jpeg".data.isSuffixOf f || ".bmp".data.isSuffixOf f

/-- Lines 134-155 of `flask_api/main.py`: append the cleaned supplied
text (if any) to the combined text, re-clean the whole, run the four
extractors, and assemble the 200 response. -/
def finishResponse (text_input : String) (o : List (String × String × String))
    (combined0 : String) (saved removed : Bool) : ProcOutcome :=
  let combined1 :=
    if text_input = "" then combined0
    else pyStripStr (combined0 ++ " " ++ clean_text_regex (some text_input))
  let combined := clean_text_regex (some combined1)
  ⟨ProcResponse.ok
    { ocr_results := o
      combined_cleaned_text := combined
      emails := extract_emails combined
      phones := extract_phones combined
      addresses := extract_addresses combined
      numbers := extract_numbers combined }, saved, removed⟩

/-- `process_visiting_card` (`flask_api/main.py`, lines 79-155).
`textField` is the `text` form field (absent = `none`), `imageFile` the
uploaded file's filename (absent = `none`); the engine outcomes for the
(at most one) saved image are supplied by `env`.  Only the
`easy_reader.readtext` call can raise inside the `try` block (the other
two adapters swallow their engine's raise); the `except` branch returns
the 500 response without reaching `os.remove`. -/
def process_visiting_card (env : EngineEnv) (textField : Option String)
    (imageFile : Option String) : ProcOutcome :=
  let text_input := pyStripStr (textField.getD "")
  if text_input = "" ∧ imageFile = none then
    ⟨ProcResponse.badRequest "No input provided. Submit an image or text.", false, false⟩
  else
    match imageFile with
    | some filename =>
      if allowed_image_ext filename then
        match env.easy with
        | Except.error e =>
          ⟨ProcResponse.serverError ("OCR failed: " ++ e), true, false⟩
        | Except.ok easyLines =>
          let easy_raw := String.intercalate "\n" easyLines
          let tesseract_raw := ocr_with_tesseract env.tess
          let paddle_raw := ocr_with_paddle env.paddle
          let easy_clean := clean_text_regex (some easy_raw)
          let tesseract_clean := clean_text_regex (some tesseract_raw)
          let paddle_clean := clean_text_regex (some paddle_raw)
          finishResponse text_input
            [("easyocr", easy_raw, easy_clean),
             ("tesseract", tesseract_raw, tesseract_clean),
             ("paddleocr", paddle_raw, paddle_clean)]
            (easy_clean ++ " " ++ tesseract_clean ++ " " ++ paddle_clean)
            true true
      else ⟨ProcResponse.badRequest "Invalid file type", false, false⟩
    | none => finishResponse text_input [] "" false false

/-! ## Well-formedness predicates for normalizer output -/

/-- No two adjacent characters are both Python whitespace. -/
def spacesSingle : List Char → Bool
  | [] => true
  | a :: t => (t.head?.all fun b => !(isPySpace a && isPySpace b)) && spacesSingle t

/-- Neither the first nor the last character is Python whitespace. -/
def wsTrimmed (l : List Char) : Bool :=
  (l.head?.all fun c => !isPySpace c) && (l.getLast?.all fun c => !isPySpace c)

/-- Normalizer output shape: every character is in the visible part of the
allow-list or is a single ASCII space, no two adjacent whitespace
characters occur, and the ends carry no whitespace. -/
def cleanOutputWF (visible : Char → Bool) (l : List Char) : Bool :=
  (l.all fun c => visible c || c == ' ') && spacesSingle l && wsTrimmed l

/-! ## Lemmas about the normalizer -/

lemma isPySpace_blank : isPySpace ' ' = true := rfl

lemma allowedBase_blank : allowedBase ' ' = true := by decide

lemma allowedBn_blank : allowedBn ' ' = true := by decide

lemma subDisallowed_all {allowed : Char → Bool} (hb : allowed ' ' = true)
    (cs : List Char) : (subDisallowed allowed cs).all allowed = true := by
  simp only [subDisallowed, List.all_eq_true, List.mem_map]
  rintro c ⟨a, _, rfl⟩
  cases h : allowed a <;> simp [h, hb]

lemma collapseWs_head? : ∀ l : List Char,
    (collapseWs l).head? = l.head?.map fun c => if isPySpace c then ' ' else c
  | [] => by simp [collapseWs]
  | [c] => by cases h : isPySpace c <;> simp [collapseWs, h]
  | c :: d :: cs => by
    have ih := collapseWs_head? (d :: cs)
    cases h1 : isPySpace c <;> cases h2 : isPySpace d
    · simp [collapseWs, h1]
    · simp [collapseWs, h1]
    · simp [collapseWs, h1, h2]
    · simp only [collapseWs, h1, h2, if_true]
      rw [ih]
      simp [h1, h2]

lemma spacesSingle_tail {a : Char} {t : List Char}
    (h : spacesSingle (a :: t) = true) : spacesSingle t = true := by
  simp only [spacesSingle, Bool.and_eq_true] at h
  exact h.2

lemma spacesSingle_append_right :
    ∀ p s : List Char, spacesSingle (p ++ s) = true → spacesSingle s = true
  | [], _, h => h
  | _ :: p, s, h => spacesSingle_append_right p s (spacesSingle_tail h)

lemma spacesSingle_append_left :
    ∀ p s : List Char, spacesSingle (p ++ s) = true → spacesSingle p = true
  | [], _, _ => rfl
  | [a], _, _ => by simp [spacesSingle]
  | a :: b :: p, s, h => by
    have ih := spacesSingle_append_left (b :: p) s (spacesSingle_tail h)
    simp only [spacesSingle, Bool.and_eq_true] at h ih ⊢
    exact ⟨by simpa using h.1, ih⟩

lemma head?_dropWhile_not (p : Char → Bool) :
    ∀ l : List Char, ∀ c ∈ (l.dropWhile p).head?, p c = false
  | [], c, h => by simp at h
  | a :: t, c, h => by
    cases hp : p a
    · rw [List.dropWhile_cons, hp] at h
      simp at h
      subst h
      exact hp
    · rw [List.dropWhile_cons, hp] at h
      simp at h
      exact head?_dropWhile_not p t c (by simpa using h)

lemma dropWhile_eq_self_of_head (p : Char → Bool) (l : List Char)
    (h : ∀ c ∈ l.head?, p c = false) : l.dropWhile p = l := by
  cases l with
  | nil => rfl
  | cons a t =>
    rw [List.dropWhile_cons, h a (by simp)]
    simp

lemma collapseWs_shape (allowed : Char → Bool) :
    ∀ l : List Char, l.all allowed = true →
      (collapseWs l).all (fun c => (allowed c && !isPySpace c) || c == ' ') = true
  | [], _ => rfl
  | [c], h => by
    simp only [List.all_cons, List.all_nil, Bool.and_true] at h
    cases hs : isPySpace c <;> simp [collapseWs, hs, h]
  | c :: d :: cs, h => by
    simp only [List.all_cons, Bool.and_eq_true] at h
    have h' : (d :: cs).all allowed = true := by
      simp only [List.all_cons, Bool.and_eq_true]
      exact h.2
    have ih := collapseWs_shape allowed (d :: cs) h'
    cases h1 : isPySpace c <;> cases h2 : isPySpace d
    · simpa [collapseWs, h1, h.1] using ih
    · simpa [collapseWs, h1, h.1] using ih
    · simpa [collapseWs, h1, h2] using ih
    · simpa [collapseWs, h1, h2] using ih

lemma collapseWs_spacesSingle : ∀ l : List Char, spacesSingle (collapseWs l) = true
  | [] => rfl
  | [c] => by cases hs : isPySpace c <;> simp [collapseWs, hs, spacesSingle]
  | c :: d :: cs => by
    have ih := collapseWs_spacesSingle (d :: cs)
    cases h1 : isPySpace c <;> cases h2 : isPySpace d
    · cases hX : (collapseWs (d :: cs)).head? <;>
        simp [collapseWs, h1, h2, spacesSingle, hX, ih]
    · cases hX : (collapseWs (d :: cs)).head? <;>
        simp [collapseWs, h1, h2, spacesSingle, hX, ih]
    · have hh := collapseWs_head? (d :: cs)
      simp only [List.head?_cons, Option.map_some', h2, if_neg] at hh
      simp [collapseWs, h1, h2, spacesSingle, hh, ih, isPySpace_blank]
    · simp [collapseWs, h1, h2, ih]

lemma collapseWs_id : ∀ l : List Char, spacesSingle l = true →
    (∀ c ∈ l, isPySpace c = true → c = ' ') → collapseWs l = l
  | [], _, _ => rfl
  | [c], _, h2 => by
    cases hs : isPySpace c
    · simp [collapseWs, hs]
    · have hc : c = ' ' := h2 c (by simp) hs
      subst hc
      simp [collapseWs, isPySpace_blank]
  | c :: d :: cs, h1, h2 => by
    have htl : spacesSingle (d :: cs) = true := spacesSingle_tail h1
    have ih := collapseWs_id (d :: cs) htl (fun x hx => h2 x (by simp [hx]))
    cases hs1 : isPySpace c <;> cases hs2 : isPySpace d
    · simp [collapseWs, hs1, ih]
    · simp [collapseWs, hs1, ih]
    · have hc : c = ' ' := h2 c (by simp) hs1
      subst hc
      simp [collapseWs, hs2, isPySpace_blank, ih]
    · exfalso
      simp [spacesSingle, hs1, hs2] at h1

lemma option_all_mem {α : Type} {o : Option α} {p : α → Bool} (h : o.all p = true) :
    ∀ c ∈ o, p c = true := by
  cases o with
  | none => intro c hc; simp at hc
  | some a =>
    intro c hc
    simp at hc h
    subst hc
    exact h

lemma stripWs_infix (l : List Char) : ∃ p q, l = p ++ stripWs l ++ q := by
  obtain ⟨p, hp⟩ := List.dropWhile_suffix (l := l) isPySpace
  obtain ⟨q, hq⟩ := List.dropWhile_suffix (l := (l.dropWhile isPySpace).reverse) isPySpace
  refine ⟨p, q.reverse, ?_⟩
  have hm : l.dropWhile isPySpace = stripWs l ++ q.reverse := by
    have := congrArg List.reverse hq
    simpa [stripWs, dropTrailWs] using this.symm
  rw [List.append_assoc, ← hm, hp]

lemma mem_stripWs (l : List Char) : ∀ c ∈ stripWs l, c ∈ l := by
  obtain ⟨p, q, h⟩ := stripWs_infix l
  intro c hc
  rw [h]
  simp [hc]

lemma spacesSingle_stripWs {l : List Char} (h : spacesSingle l = true) :
    spacesSingle (stripWs l) = true := by
  obtain ⟨p, q, he⟩ := stripWs_infix l
  rw [he, List.append_assoc] at h
  exact spacesSingle_append_left _ q (spacesSingle_append_right p _ h)

lemma wsTrimmed_stripWs (l : List Char) : wsTrimmed (stripWs l) = true := by
  have e : stripWs l = ((l.dropWhile isPySpace).reverse.dropWhile isPySpace).reverse := rfl
  unfold wsTrimmed
  rw [e, List.head?_reverse, List.getLast?_reverse, Bool.and_eq_true]
  refine ⟨?_, ?_⟩
  · cases hc : ((l.dropWhile isPySpace).reverse.dropWhile isPySpace).getLast? with
    | none => rfl
    | some c =>
      obtain ⟨t, ht⟩ := List.dropWhile_suffix (l := (l.dropWhile isPySpace).reverse) isPySpace
      have hMl : (l.dropWhile isPySpace).reverse.getLast? = some c := by
        rw [← ht, List.getLast?_append, hc]
        rfl
      rw [List.getLast?_reverse] at hMl
      have hpc := head?_dropWhile_not isPySpace l c (by rw [hMl]; rfl)
      simp [hpc]
  · cases hc : ((l.dropWhile isPySpace).reverse.dropWhile isPySpace).head? with
    | none => rfl
    | some c =>
      have hpc := head?_dropWhile_not isPySpace (l.dropWhile isPySpace).reverse c
        (by rw [hc]; rfl)
      simp [hpc]

lemma stripWs_id (l : List Char) (h : wsTrimmed l = true) : stripWs l = l := by
  unfold wsTrimmed at h
  rw [Bool.and_eq_true] at h
  have h1 : ∀ c ∈ l.head?, isPySpace c = false := fun c hc => by
    simpa using option_all_mem h.1 c hc
  have h2 : ∀ c ∈ l.reverse.head?, isPySpace c = false := fun c hc => by
    rw [List.head?_reverse] at hc
    simpa using option_all_mem h.2 c hc
  unfold stripWs dropTrailWs
  rw [dropWhile_eq_self_of_head _ _ h1, dropWhile_eq_self_of_head _ _ h2,
    List.reverse_reverse]

lemma subDisallowed_id (allowed : Char → Bool) :
    ∀ l : List Char, (∀ c ∈ l, allowed c = true) → subDisallowed allowed l = l
  | [], _ => rfl
  | a :: t, h => by
    have ih := subDisallowed_id allowed t (fun c hc => h c (by simp [hc]))
    simp only [subDisallowed, List.map_cons] at ih ⊢
    rw [if_pos (h a (by simp)), ih]

lemma cleanChars_WF (allowed : Char → Bool) (hb : allowed ' ' = true) (cs : List Char) :
    (cleanChars allowed cs).all (fun c => (allowed c && !isPySpace c) || c == ' ') = true
    ∧ spacesSingle (cleanChars allowed cs) = true
    ∧ wsTrimmed (cleanChars allowed cs) = true := by
  have hall := collapseWs_shape allowed _ (subDisallowed_all hb cs)
  have hss := collapseWs_spacesSingle (subDisallowed allowed cs)
  refine ⟨?_, spacesSingle_stripWs hss, wsTrimmed_stripWs _⟩
  rw [List.all_eq_true] at hall ⊢
  intro c hc
  exact hall c (mem_stripWs _ c hc)

lemma cleanChars_idem (allowed : Char → Bool) (hb : allowed ' ' = true) (cs : List Char) :
    cleanChars allowed (cleanChars allowed cs) = cleanChars allowed cs := by
  obtain ⟨hall, hss, htr⟩ := cleanChars_WF allowed hb cs
  rw [List.all_eq_true] at hall
  have h1 : subDisallowed allowed (cleanChars allowed cs) = cleanChars allowed cs := by
    apply subDisallowed_id
    intro c hc
    rcases Bool.or_eq_true_iff.mp (hall c hc) with h | h
    · rw [Bool.and_eq_true] at h
      exact h.1
    · have hc' : c = ' ' := by simpa using h
      rw [hc']
      exact hb
  have h2 : collapseWs (cleanChars allowed cs) = cleanChars allowed cs := by
    apply collapseWs_id _ hss
    intro c hc hsp
    rcases Bool.or_eq_true_iff.mp (hall c hc) with h | h
    · rw [Bool.and_eq_true] at h
      rw [hsp] at h
      simp at h
    · simpa using h
  have h3 : stripWs (cleanChars allowed cs) = cleanChars allowed cs := stripWs_id _ htr
  show stripWs (collapseWs (subDisallowed allowed (cleanChars allowed cs))) = _
  rw [h1, h2, h3]

lemma stripWs_nil_of_all_space (l : List Char) (h : ∀ c ∈ l, isPySpace c = true) :
    stripWs l = [] := by
  unfold stripWs dropTrailWs
  rw [List.dropWhile_eq_nil_iff.mpr h]
  rfl

lemma collapseWs_all_blank :
    ∀ l : List Char, l ≠ [] → (∀ c ∈ l, c = ' ') → collapseWs l = [' ']
  | [], h, _ => absurd rfl h
  | [c], _, h => by
    have hc : c = ' ' := h c (by simp)
    subst hc
    simp [collapseWs, isPySpace_blank]
  | c :: d :: cs, _, h => by
    have hc : c = ' ' := h c (by simp)
    have hd : d = ' ' := h d (by simp)
    have ih := collapseWs_all_blank (d :: cs) (by simp) (fun x hx => h x (by simp [hx]))
    subst hc
    subst hd
    simpa [collapseWs, isPySpace_blank] using ih

lemma cleanChars_nil_of_disallowed (allowed : Char → Bool) (l : List Char)
    (hne : l ≠ []) (h : ∀ c ∈ l, allowed c = false) : cleanChars allowed l = [] := by
  have hsub : ∀ c ∈ subDisallowed allowed l, c = ' ' := by
    intro c hc
    simp only [subDisallowed, List.mem_map] at hc
    obtain ⟨a, ha, rfl⟩ := hc
    simp [h a ha]
  have hne' : subDisallowed allowed l ≠ [] := by
    simp only [subDisallowed, ne_eq, List.map_eq_nil_iff]
    exact hne
  show stripWs (collapseWs (subDisallowed allowed l)) = []
  rw [collapseWs_all_blank _ hne' hsub]
  rfl

lemma all_visible_of_shape (visible : Char → Bool) (l : List Char)
    (h : l.all (fun c => ((visible c || isPySpace c) && !isPySpace c) || c == ' ') = true) :
    l.all (fun c => visible c || c == ' ') = true := by
  rw [List.all_eq_true] at h ⊢
  intro c hc
  rcases Bool.or_eq_true_iff.mp (h c hc) with h' | h'
  · rw [Bool.and_eq_true] at h'
    have hs : isPySpace c = false := by simpa using h'.2
    have hv : visible c = true := by
      rcases Bool.or_eq_true_iff.mp h'.1 with hv | hv
      · exact hv
      · simp [hv] at hs
    simp [hv]
  · simp [h']

/-! ## Claim theorems -/

/-- C1 counterexample: in the bilingual variant the tesseract adapter does
not catch an internal engine error and does not convert it to an empty
raw-text string; the error propagates, so the claim that in both variants
every adapter catches internally is false at this input. -/
theorem C1_counterexample :
    ¬ (ocr_with_tesseract_bn (Except.error "engine crashed") = Except.ok "") := by
  intro h
  exact Except.noConfusion h

/-- C1 (amended): in the base variant the tesseract and paddle adapters
catch any internal engine error and return the empty raw-text string, and
both engines failing does not prevent the pipeline from completing with a
200 response; in the bilingual variant the tesseract adapter propagates
the engine error to its caller. -/
theorem C1_amended_isolation (e₁ e₂ e₃ : String) (ls : List String) :
    ocr_with_tesseract (Except.error e₁) = ""
    ∧ ocr_with_paddle (Except.error e₂) = ""
    ∧ (∃ body, (process_visiting_card ⟨Except.ok ls, Except.error e₁, Except.error e₂⟩
          none (some "card.png")).resp = ProcResponse.ok body)
    ∧ ocr_with_tesseract_bn (Except.error e₃) = Except.error e₃ :=
  ⟨rfl, rfl, ⟨_, rfl⟩, rfl⟩

/-- C2: the text normalizer is idempotent in both variants: cleaning an
already-cleaned string returns it unchanged. -/
theorem C2_clean_idempotent (x : String) :
    clean_text_regex (some (clean_text_regex (some x))) = clean_text_regex (some x)
    ∧ (clean_text_regex_bn (some x)).bind (fun y => clean_text_regex_bn (some y))
        = clean_text_regex_bn (some x) := by
  constructor
  · by_cases hx : x = ""
    · subst hx; rfl
    · simp only [clean_text_regex, if_neg hx]
      by_cases hm : String.mk (cleanChars allowedBase x.data) = ""
      · rw [if_pos hm]
        exact hm.symm
      · rw [if_neg hm]
        show String.mk (cleanChars allowedBase (cleanChars allowedBase x.data)) = _
        rw [cleanChars_idem allowedBase allowedBase_blank]
  · show Except.ok (String.mk (cleanChars allowedBn (cleanChars allowedBn x.data))) = _
    rw [cleanChars_idem allowedBn allowedBn_blank]
    rfl

/-- C3 counterexample: on the input
"123 Gulshan Road, Dhaka, Bangladesh, short" the address extractor does
not yield the Dhaka fragment (the fragment " Dhaka" has length 6, which is
not greater than 10), contradicting the claim that it yields both the
Gulshan Road fragment and the Dhaka fragment. -/
theorem C3_counterexample :
    "Dhaka" ∉ extract_addresses "123 Gulshan Road, Dhaka, Bangladesh, short"
    ∧ " Dhaka" ∉ extract_addresses "123 Gulshan Road, Dhaka, Bangladesh, short" := by
  decide

/-- C3 (amended): on that input the extractor yields exactly the
"123 Gulshan Road" fragment (16 characters, contains "road") and the
trimmed "Bangladesh" fragment (the piece " Bangladesh" has 11 characters
and contains "bangladesh"); the " Dhaka" fragment is only 6 characters
long, so it does not qualify despite containing a keyword, and "short"
does not qualify either. -/
theorem C3_amended_addresses :
    extract_addresses "123 Gulshan Road, Dhaka, Bangladesh, short"
      = ["123 Gulshan Road", "Bangladesh"] := by
  decide

/-- C4: a request carrying only the text field
"Email: x@y.com, Phone: 01712345678" and no image yields a 200 response
whose ocr_results map is empty, whose combined_cleaned_text equals the
cleaned input text, whose emails list is exactly ["x@y.com"], and whose
phones list contains "01712345678" — for every engine environment, since
no engine is consulted. -/
theorem C4_text_only_request (env : EngineEnv) :
    ∃ body, (process_visiting_card env
        (some "Email: x@y.com, Phone: 01712345678") none).resp = ProcResponse.ok body
      ∧ body.ocr_results = []
      ∧ body.combined_cleaned_text
          = clean_text_regex (some "Email: x@y.com, Phone: 01712345678")
      ∧ body.emails = ["x@y.com"]
      ∧ "01712345678" ∈ body.phones := by
  refine ⟨_, rfl, ?_, ?_, ?_, ?_⟩ <;> decide

/-- C6 counterexample: in the bilingual variant the normalizer applied to
an absent (None) input raises a TypeError instead of returning the empty
string, so the claim that in both variants None yields the empty string
is false. -/
theorem C6_counterexample : ¬ (clean_text_regex_bn none = Except.ok "") := by
  intro h
  exact Except.noConfusion h

/-- C6 (amended): the base variant's normalizer returns the empty string
for both empty and absent input and never raises; the bilingual variant
returns the empty string for empty string input but raises a TypeError
for absent (None) input, because it lacks the falsy guard. -/
theorem C6_amended_behavior :
    clean_text_regex none = ""
    ∧ clean_text_regex (some "") = ""
    ∧ clean_text_regex_bn (some "") = Except.ok ""
    ∧ clean_text_regex_bn none
        = Except.error "TypeError: expected string or bytes-like object" :=
  ⟨rfl, rfl, rfl, rfl⟩

/-- C7: a request with neither an image file nor a text field yields the
400 "No input provided" response, with no upload saved; the outcome is
the same constant for every engine environment, i.e. no OCR engine
adapter is consulted before the rejection. -/
theorem C7_no_input_rejected (env : EngineEnv) :
    process_visiting_card env none none
      = ⟨ProcResponse.badRequest "No input provided. Submit an image or text.",
          false, false⟩ := rfl

/-- C8 (code bug witness): when the image branch runs for an accepted
extension and the easyocr call raises, the endpoint answers 500 from the
except branch with the saved upload left in place
(savedUpload = true, removedUpload = false): the upload is not deleted on
this exit path of the image branch, contrary to the claim. -/
theorem C8_upload_leak_on_ocr_failure :
    process_visiting_card ⟨Except.error "boom", Except.ok "", Except.ok []⟩
        none (some "card.png")
      = ⟨ProcResponse.serverError "OCR failed: boom", true, false⟩ := rfl

/-- C5: for every string, the cleaned output in the base variant contains
only characters of the visible allow-list or single ASCII spaces, has no
two adjacent whitespace characters, and carries no leading or trailing
whitespace; likewise for the bilingual variant's allow-list. -/
theorem C5_clean_output_wellformed (s : String) :
    cleanOutputWF visibleBase (clean_text_regex (some s)).data = true
    ∧ ∃ y, clean_text_regex_bn (some s) = Except.ok y
        ∧ cleanOutputWF visibleBn y.data = true := by
  constructor
  · by_cases hx : s = ""
    · subst hx; rfl
    · obtain ⟨hall, hss, htr⟩ := cleanChars_WF allowedBase allowedBase_blank s.data
      have hv := all_visible_of_shape visibleBase _ hall
      simp only [clean_text_regex, if_neg hx]
      show cleanOutputWF visibleBase (cleanChars allowedBase s.data) = true
      unfold cleanOutputWF
      simp [hv, hss, htr]
  · obtain ⟨hall, hss, htr⟩ := cleanChars_WF allowedBn allowedBn_blank s.data
    have hv := all_visible_of_shape visibleBn _ hall
    refine ⟨String.mk (cleanChars allowedBn s.data), rfl, ?_⟩
    show cleanOutputWF visibleBn (cleanChars allowedBn s.data) = true
    unfold cleanOutputWF
    simp [hv, hss, htr]

/-- C9: the text field is stripped before the no-input check: a request
whose text consists only of whitespace characters and carries no image is
rejected with the same 400 response as a request with no text at all, for
every engine environment. -/
theorem C9_whitespace_text_rejected (env : EngineEnv) (s : String)
    (h : ∀ c ∈ s.data, isPySpace c = true) :
    process_visiting_card env (some s) none
      = ⟨ProcResponse.badRequest "No input provided. Submit an image or text.",
          false, false⟩ := by
  have hstrip : pyStripStr s = "" := by
    unfold pyStripStr
    rw [stripWs_nil_of_all_space s.data h]
  simp only [process_visiting_card, Option.getD_some]
  rw [hstrip]
  simp

/-- C9 witness at the concrete all-whitespace text consisting of a space,
a tab and a space. -/
theorem C9_whitespace_text_rejected_witness :
    (∀ c ∈ (" \t ").data, isPySpace c = true)
    ∧ process_visiting_card ⟨Except.ok [], Except.ok "", Except.ok []⟩
        (some " \t ") none
      = ⟨ProcResponse.badRequest "No input provided. Submit an image or text.",
          false, false⟩ :=
  ⟨by decide,
    C9_whitespace_text_rejected ⟨Except.ok [], Except.ok "", Except.ok []⟩
      " \t " (by decide)⟩

/-- C10: a no-image request whose non-empty text consists entirely of
characters outside the base allow-list (hence contains no whitespace
either) passes input validation and yields a 200 response whose combined
cleaned text is empty and whose four extracted collections are all empty,
for every engine environment. -/
theorem C10_disallowed_text_all_empty (env : EngineEnv) (s : String)
    (hne : s.data ≠ []) (h : ∀ c ∈ s.data, allowedBase c = false) :
    process_visiting_card env (some s) none
      = ⟨ProcResponse.ok ⟨[], "", [], [], [], []⟩, false, false⟩ := by
  have hnosp : ∀ c ∈ s.data, isPySpace c = false := fun c hc => by
    have hb := h c hc
    unfold allowedBase at hb
    exact (Bool.or_eq_false_iff.mp hb).2
  have htrim : wsTrimmed s.data = true := by
    unfold wsTrimmed
    rw [Bool.and_eq_true]
    constructor
    · cases hh : s.data.head? with
      | none => rfl
      | some c =>
        have hc := hnosp c (List.mem_of_mem_head? (by rw [hh]; rfl))
        simp [hc]
    · cases hh : s.data.getLast? with
      | none => rfl
      | some c =>
        have hcmem : c ∈ s.data := by
          have h1 : s.data.reverse.head? = some c := by rw [List.head?_reverse, hh]
          have h2 := List.mem_of_mem_head?
            (show c ∈ s.data.reverse.head? by rw [h1]; rfl)
          simpa using h2
        have hc := hnosp c hcmem
        simp [hc]
  have hstrip : pyStripStr s = s := by
    unfold pyStripStr
    rw [stripWs_id s.data htrim]
  have hsne : s ≠ "" := by
    intro e
    apply hne
    rw [e]
  have hclean : clean_text_regex (some s) = "" := by
    simp only [clean_text_regex, if_neg hsne]
    rw [cleanChars_nil_of_disallowed allowedBase s.data hne h]
  have hfin : finishResponse s [] "" false false
      = ⟨ProcResponse.ok ⟨[], "", [], [], [], []⟩, false, false⟩ := by
    simp only [finishResponse]
    rw [if_neg hsne, hclean]
    rfl
  simp only [process_visiting_card, Option.getD_some]
  rw [hstrip]
  rw [if_neg (fun hcontra => hsne hcontra.1)]
  exact hfin

/-- C10 witness at the concrete disallowed text "!". -/
theorem C10_disallowed_text_all_empty_witness :
    ("!".data ≠ [] ∧ (∀ c ∈ "!".data, allowedBase c = false))
    ∧ process_visiting_card ⟨Except.ok [], Except.ok "", Except.ok []⟩
        (some "!") none
      = ⟨ProcResponse.ok ⟨[], "", [], [], [], []⟩, false, false⟩ :=
  ⟨⟨by decide, by decide⟩,
    C10_disallowed_text_all_empty ⟨Except.ok [], Except.ok "", Except.ok []⟩ "!"
      (by decide) (by decide)⟩
